import Mathlib

/-!
Verification of the Crazy Eights rules engine.

The game logic of `src/App.tsx` and `src/utils/deck.ts` is embedded as pure
Lean functions over an explicit `GameState` (`src/types.ts`).  React state
updates become state-to-state functions; the `Math.random`-driven shuffle
becomes an explicit shuffle-outcome parameter constrained (in the step
relation and in theorem hypotheses) to be a permutation of its input, which
is the contract of the Fisher-Yates `shuffleDeck`; `crypto.randomUUID()`
card identities are modelled as distinct natural-number tokens assigned at
deck construction time.
-/

inductive Suit where
  | hearts | diamonds | clubs | spades
deriving DecidableEq

inductive Rank where
  | r2 | r3 | r4 | r5 | r6 | r7 | r8 | r9 | r10 | rJ | rQ | rK | rA
deriving DecidableEq

structure Card where
  id : Nat
  suit : Suit
  rank : Rank
  value : Nat
deriving DecidableEq

inductive PlayerType where
  | player | ai
deriving DecidableEq

inductive GameStatus where
  | start | playing | won | lost | draw
deriving DecidableEq

structure GameState where
  deck : List Card
  discardPile : List Card
  playerHand : List Card
  aiHand : List Card
  currentTurn : PlayerType
  currentSuit : Option Suit
  status : GameStatus
  winner : Option PlayerType
  isSuitSelectorOpen : Bool
deriving DecidableEq

def SUITS : List Suit := [.hearts, .diamonds, .clubs, .spades]

def RANKS : List Rank :=
  [.r2, .r3, .r4, .r5, .r6, .r7, .r8, .r9, .r10, .rJ, .rQ, .rK, .rA]

/-- Rank ordinal used for `Card.value` (2=2, ..., 10=10, J=11, Q=12, K=13, A=14). -/
def rankValue : Rank → Nat
  | .r2 => 2
  | .r3 => 3
  | .r4 => 4
  | .r5 => 5
  | .r6 => 6
  | .r7 => 7
  | .r8 => 8
  | .r9 => 9
  | .r10 => 10
  | .rJ => 11
  | .rQ => 12
  | .rK => 13
  | .rA => 14

/-- `createDeck` of `src/utils/deck.ts`: one card per (suit, rank) pair, suits
outer, ranks inner; the `crypto.randomUUID()` identity is modelled as the
card's position index, which keeps identities stable and pairwise distinct. -/
def createDeck : List Card :=
  ((SUITS.flatMap fun st => RANKS.map fun rk => (st, rk)).enum).map
    fun p => { id := p.1, suit := p.2.1, rank := p.2.2, value := rankValue p.2.2 }

/-- `dealCards` of `src/utils/deck.ts`: first `count` cards and the rest. -/
def dealCards (deck : List Card) (count : Nat) : List Card × List Card :=
  (deck.take count, deck.drop count)

/-- The initial `useState` value in `App.tsx` (pre-game mount state). -/
def initialState : GameState :=
  { deck := [], discardPile := [], playerHand := [], aiHand := [],
    currentTurn := .player, currentSuit := none, status := .start,
    winner := none, isSuitSelectorOpen := false }

/-- `startNewGame` of `App.tsx`, taking the already-shuffled deck as input:
deal 8 to the player, 8 to the AI, seed the discard pile with the next card,
rest becomes the draw pile. -/
def startNewGame (newDeck : List Card) : GameState :=
  let dealPlayer := dealCards newDeck 8
  let dealAI := dealCards dealPlayer.2 8
  match dealAI.2 with
  | [] => initialState  -- the source would fault here (firstDiscard undefined); a real deck has 52 cards
  | firstDiscard :: finalDeck =>
    { deck := finalDeck,
      discardPile := [firstDiscard],
      playerHand := dealPlayer.1,
      aiHand := dealAI.1,
      currentTurn := .player,
      currentSuit := some firstDiscard.suit,
      status := .playing,
      winner := none,
      isSuitSelectorOpen := false }

/-- The winner-check `useEffect` of `App.tsx`: only while playing, player's
empty hand wins, else AI's empty hand loses. -/
def checkWinner (s : GameState) : GameState :=
  if s.status ≠ .playing then s
  else if s.playerHand = [] then { s with status := .won, winner := some .player }
  else if s.aiHand = [] then { s with status := .lost, winner := some .ai }
  else s

/-- `isValidMove` of `App.tsx`: an 8 is always valid, else match the current
(active) suit, else match the top card's rank. -/
def isValidMove (card topCard : Card) (currentSuit : Option Suit) : Bool :=
  if card.rank = .r8 then true
  else if some card.suit = currentSuit then true
  else if card.rank = topCard.rank then true
  else false

/-- The tail of `drawCard` in `App.tsx`: take `deck[0]` from the (possibly
just reshuffled) pile `deck`, append it to the acting hand, store `discardPile`.
The source indexes `deck[0]` unconditionally; the `[]` case cannot be reached
from `drawCard` below. -/
def drawStep (deck discardPile : List Card) (p : PlayerType) (s : GameState) : GameState :=
  match deck with
  | [] => s
  | newCard :: newDeck =>
    { s with
      deck := newDeck,
      discardPile := discardPile,
      playerHand := if p = .player then s.playerHand ++ [newCard] else s.playerHand,
      aiHand := if p = .ai then s.aiHand ++ [newCard] else s.aiHand }

/-- `drawCard` of `App.tsx`.  `shuffled` is the outcome of
`shuffleDeck(discardPile.slice(0, length-1))`, i.e. a permutation of the
discard pile minus its top card; it is consulted only in the reshuffle branch. -/
def drawCard (shuffled : List Card) (p : PlayerType) (s : GameState) : GameState :=
  if s.deck = [] then
    if s.discardPile.length ≤ 1 then
      -- no cards to draw: skip turn
      { s with currentTurn := if p = .player then .ai else .player }
    else
      match s.discardPile.getLast? with
      | none => s  -- unreachable: the pile has at least two cards here
      | some topDiscard => drawStep shuffled [topDiscard] p s
  else
    drawStep s.deck s.discardPile p s

/-- `handlePlayerCardClick` of `App.tsx`.  Guards: player's turn and playing
status; legality via `isValidMove`; card-in-hand guard inside the updater.
On an empty discard pile the source would fault reading `topCard.rank`;
that case (unreachable in play) is modelled as a no-op. -/
def handlePlayerCardClick (card : Card) (s : GameState) : GameState :=
  if s.currentTurn ≠ .player ∨ s.status ≠ .playing then s
  else
    match s.discardPile.getLast? with
    | none => s
    | some topCard =>
      if isValidMove card topCard s.currentSuit then
        if s.playerHand.any fun c => c.id = card.id then
          if card.rank = .r8 then
            { s with
              playerHand := s.playerHand.filter fun c => c.id ≠ card.id,
              discardPile := s.discardPile ++ [card],
              isSuitSelectorOpen := true,
              currentSuit := some card.suit }
          else
            { s with
              playerHand := s.playerHand.filter fun c => c.id ≠ card.id,
              discardPile := s.discardPile ++ [card],
              currentTurn := .ai,
              currentSuit := some card.suit }
        else s
      else s

/-- `handleSuitSelect` of `App.tsx`: unconditionally records the chosen suit,
closes the selector and hands the turn to the AI. -/
def handleSuitSelect (suit : Suit) (s : GameState) : GameState :=
  { s with currentSuit := some suit, isSuitSelectorOpen := false, currentTurn := .ai }

/-- `handleCancelSuitSelection` of `App.tsx`: pop the just-played 8 off the
discard pile back into the player's hand, close the selector, and set the
active suit to the printed suit of the uncovered top card.  With fewer than
two discard cards the source would fault reading `newTopCard.suit`;
modelled as a no-op (unreachable while the selector is open). -/
def handleCancelSuitSelection (s : GameState) : GameState :=
  match s.discardPile.getLast?, s.discardPile.dropLast.getLast? with
  | some playedEight, some newTopCard =>
    { s with
      playerHand := s.playerHand ++ [playedEight],
      discardPile := s.discardPile.dropLast,
      isSuitSelectorOpen := false,
      currentSuit := some newTopCard.suit }
  | _, _ => s

/-- `handlePlayerDraw` of `App.tsx`: guarded on turn and status only. -/
def handlePlayerDraw (shuffled : List Card) (s : GameState) : GameState :=
  if s.currentTurn ≠ .player ∨ s.status ≠ .playing then s
  else drawCard shuffled .player s

/-- One step of the `suitCounts` accumulator in the AI effect of `App.tsx`
(`acc[c.suit] = (acc[c.suit] || 0) + 1` on a JS object): keys keep insertion
order; an existing key is incremented, a new key is appended with count 1. -/
def bump (acc : List (Suit × Nat)) (st : Suit) : List (Suit × Nat) :=
  if acc.any fun p => p.1 = st then
    acc.map fun p => if p.1 = st then (p.1, p.2 + 1) else p
  else acc ++ [(st, 1)]

/-- Suit counts of a plain suit sequence (insertion-ordered association list). -/
def countsOf (ss : List Suit) : List (Suit × Nat) := ss.foldl bump []

/-- `suitCounts` of the AI effect: counts over the AI hand, skipping the
card with id `skipId` (the 8 about to be played). -/
def suitCounts (skipId : Nat) (hand : List Card) : List (Suit × Nat) :=
  hand.foldl (fun acc c => if c.id ≠ skipId then bump acc c.suit else acc) []

/-- JS object property lookup `suitCounts[s]`: `undefined` becomes `none`. -/
def lookupCount (acc : List (Suit × Nat)) (st : Suit) : Option Nat :=
  (acc.find? fun p => p.1 = st).map Prod.snd

/-- JS `>` on possibly-undefined operands: any comparison involving
`undefined` is false. -/
def optGt : Option Nat → Option Nat → Bool
  | some a, some b => decide (b < a)
  | _, _ => false

/-- `bestSuit` of the AI effect: `Object.keys(suitCounts).reduce((a, b) =>
suitCounts[a] > suitCounts[b] ? a : b, 'hearts')`. -/
def bestSuit (acc : List (Suit × Nat)) : Suit :=
  (acc.map Prod.fst).foldl
    (fun a b => if optGt (lookupCount acc a) (lookupCount acc b) then a else b)
    .hearts

/-- The committed decision of the AI-turn `useEffect` in `App.tsx` (the
single-threaded model of §5 of the design: the delayed, cancellable callback
is observed only as one atomic transition).  Plays the first valid non-8,
else the first valid 8 choosing `bestSuit`, else draws. -/
def aiStep (shuffled : List Card) (s : GameState) : GameState :=
  if s.currentTurn ≠ .ai ∨ s.status ≠ .playing then s
  else
    match s.discardPile.getLast? with
    | none => s  -- source would fault; the discard pile is never empty in play
    | some topCard =>
      let validMoves := s.aiHand.filter fun c => isValidMove c topCard s.currentSuit
      let nonEights := validMoves.filter fun c => c.rank ≠ .r8
      let eights := validMoves.filter fun c => c.rank = .r8
      match nonEights with
      | cardToPlay :: _ =>
        { s with
          aiHand := s.aiHand.filter fun c => c.id ≠ cardToPlay.id,
          discardPile := s.discardPile ++ [cardToPlay],
          currentTurn := .player,
          currentSuit := some cardToPlay.suit }
      | [] =>
        match eights with
        | cardToPlay :: _ =>
          { s with
            aiHand := s.aiHand.filter fun c => c.id ≠ cardToPlay.id,
            discardPile := s.discardPile ++ [cardToPlay],
            currentTurn := .player,
            currentSuit := some (bestSuit (suitCounts cardToPlay.id s.aiHand)) }
        | [] => drawCard shuffled .ai s

/-- One intent processed by the engine.  `PlayCard` carries the card object
handed to `onCardClick`, which the UI always takes from the rendered player
hand; `SelectSuit`/`CancelSuitSelection` are available only while the
`SuitSelector` modal is rendered, i.e. while the selector is open.  Shuffle
outcomes are quantified as permutations of the recycled discard cards. -/
inductive Step : GameState → GameState → Prop where
  | startGame (s : GameState) (d : List Card) (hd : d.Perm createDeck) :
      Step s (startNewGame d)
  | playCard (s : GameState) (c : Card) (hc : c ∈ s.playerHand) :
      Step s (handlePlayerCardClick c s)
  | selectSuit (s : GameState) (suit : Suit) (ho : s.isSuitSelectorOpen = true) :
      Step s (handleSuitSelect suit s)
  | cancelSelect (s : GameState) (ho : s.isSuitSelectorOpen = true) :
      Step s (handleCancelSuitSelection s)
  | draw (s : GameState) (sh : List Card) (hsh : sh.Perm s.discardPile.dropLast) :
      Step s (handlePlayerDraw sh s)
  | aiMove (s : GameState) (sh : List Card) (hsh : sh.Perm s.discardPile.dropLast) :
      Step s (aiStep sh s)
  | winCheck (s : GameState) : Step s (checkWinner s)

/-- States reachable from `StartGame` (for some shuffle outcome) by any
sequence of intents. -/
def Reachable (s : GameState) : Prop :=
  ∃ d, d.Perm createDeck ∧ Relation.ReflTransGen Step (startNewGame d) s

/-- All four card zones of a state, as one list. -/
def zones (s : GameState) : List Card :=
  s.deck ++ s.discardPile ++ s.playerHand ++ s.aiHand

/-- Helper to build a concrete card. -/
def cardOf (i : Nat) (st : Suit) (rk : Rank) : Card :=
  { id := i, suit := st, rank := rk, value := rankValue rk }

/-- A playing state with a non-empty draw pile (used to evaluate DrawCard). -/
def cexDrawState : GameState :=
  { deck := [cardOf 0 .hearts .r4],
    discardPile := [cardOf 1 .spades .r9],
    playerHand := [cardOf 2 .clubs .r2],
    aiHand := [cardOf 3 .diamonds .r5],
    currentTurn := .player, currentSuit := some .spades,
    status := .playing, winner := none, isSuitSelectorOpen := true }

/-- A playing state in which the suit selector is open (pending selection)
and the draw pile is non-empty. -/
def cexPendingState : GameState :=
  { deck := [cardOf 10 .clubs .r7],
    discardPile := [cardOf 11 .hearts .r5, cardOf 12 .diamonds .r8],
    playerHand := [cardOf 13 .spades .r3],
    aiHand := [cardOf 14 .clubs .r9],
    currentTurn := .player, currentSuit := some .diamonds,
    status := .playing, winner := none, isSuitSelectorOpen := true }

/-- A terminal (won) state in which the suit selector is still open: produced
when the player's last card was an 8 and the winner check fired before any
suit was chosen. -/
def cexWonState : GameState :=
  { deck := [], discardPile := [cardOf 20 .hearts .r5, cardOf 21 .clubs .r8],
    playerHand := [], aiHand := [cardOf 22 .spades .r4],
    currentTurn := .player, currentSuit := some .clubs,
    status := .won, winner := some .player, isSuitSelectorOpen := true }

/-- A playing state whose player hand has just been emptied (winner check
has not yet fired). -/
def cexEmptyHandState : GameState :=
  { deck := [cardOf 23 .hearts .r6], discardPile := [cardOf 24 .diamonds .r7],
    playerHand := [], aiHand := [cardOf 25 .spades .r2],
    currentTurn := .ai, currentSuit := some .diamonds,
    status := .playing, winner := none, isSuitSelectorOpen := false }

/-- The played 8s and surrounding cards of the nested-eight cancel scenario. -/
def eightSpades : Card := cardOf 40 .spades .r8

def eightHearts : Card := cardOf 41 .hearts .r8

/-- Pre-play state of the nested-eight cancel scenario: the discard top is
the 8♠ whose *chosen* suit (the active suit) is diamonds, not spades. -/
def cexNestedState : GameState :=
  { deck := [cardOf 43 .clubs .r4],
    discardPile := [cardOf 42 .hearts .r5, eightSpades],
    playerHand := [eightHearts, cardOf 44 .diamonds .r9],
    aiHand := [cardOf 45 .clubs .rK],
    currentTurn := .player, currentSuit := some .diamonds,
    status := .playing, winner := none, isSuitSelectorOpen := false }

/-- AI-to-move state in which only the 8♦ is legal and the remaining hand
ties one heart against one spade. -/
def cexAiState : GameState :=
  { deck := [cardOf 50 .hearts .r2],
    discardPile := [cardOf 51 .diamonds .r4],
    playerHand := [cardOf 52 .clubs .r6],
    aiHand := [cardOf 53 .diamonds .r8, cardOf 54 .hearts .r3, cardOf 55 .spades .r3],
    currentTurn := .ai, currentSuit := some .diamonds,
    status := .playing, winner := none, isSuitSelectorOpen := false }

/-- Deduplication of a suit sequence keeping first occurrences: the key
order of the JS `suitCounts` object built by the AI effect. -/
def dF : List Suit → List Suit
  | [] => []
  | x :: xs => x :: dF (xs.filter fun y => y ≠ x)
termination_by l => l.length
decreasing_by simp_wf; exact Nat.lt_succ_of_le (List.length_filter_le _ _)

/-- The spec's opponent-suit-choice example: AI hand 8♥, 3♣, 5♣, 9♦ with
only the 8 legal (top K♠, active suit spades). -/
def cexAiExample : GameState :=
  { deck := [cardOf 70 .hearts .r2],
    discardPile := [cardOf 71 .spades .rK],
    playerHand := [cardOf 72 .hearts .r6],
    aiHand := [cardOf 73 .hearts .r8, cardOf 74 .clubs .r3,
      cardOf 75 .clubs .r5, cardOf 76 .diamonds .r9],
    currentTurn := .ai, currentSuit := some .spades,
    status := .playing, winner := none, isSuitSelectorOpen := false }

theorem drawCard_deck_cons (sh : List Card) (p : PlayerType) (s : GameState)
    (c : Card) (rest : List Card) (h : s.deck = c :: rest) :
    drawCard sh p s =
      { s with
        deck := rest,
        playerHand := if p = .player then s.playerHand ++ [c] else s.playerHand,
        aiHand := if p = .ai then s.aiHand ++ [c] else s.aiHand } := by
  simp [drawCard, h, drawStep]

/-- C4: `isValidMove(card, topDiscard, activeSuit)` is true iff the card's
rank is 8, or the card's suit equals the active suit, or the card's rank
equals the top discard's rank — so every 8 is valid regardless of the other
arguments, and a rank match is valid even when the card's suit matches
neither the top card's suit nor the active suit. -/
theorem C4_isValidMove_iff (card topCard : Card) (currentSuit : Option Suit) :
    isValidMove card topCard currentSuit = true ↔
      (card.rank = Rank.r8 ∨ some card.suit = currentSuit ∨ card.rank = topCard.rank) := by
  by_cases h1 : card.rank = Rank.r8 <;>
    by_cases h2 : some card.suit = currentSuit <;>
    by_cases h3 : card.rank = topCard.rank <;>
    simp [isValidMove, h1, h2, h3]

/-- C1, as written, is false: with a non-empty draw pile, `drawCard` moves
the head of the pile into the acting hand but leaves turn ownership with the
acting side (here: still the player, not the AI). -/
theorem C1_counterexample :
    (handlePlayerDraw [] cexDrawState).deck = []
    ∧ (handlePlayerDraw [] cexDrawState).playerHand
        = cexDrawState.playerHand ++ [cardOf 0 .hearts .r4]
    ∧ ¬ (handlePlayerDraw [] cexDrawState).currentTurn = PlayerType.ai := by
  decide

/-- C1 amended: for every state with a non-empty draw pile, `drawCard`
removes the head card of the pile and appends it to the acting side's hand,
leaving every other field — in particular turn ownership — unchanged (the
turn changes only in the empty-pile skip branch). -/
theorem C1_draw_keeps_turn (s : GameState) (sh : List Card) (p : PlayerType)
    (c : Card) (rest : List Card) (hdeck : s.deck = c :: rest) :
    drawCard sh p s =
      { s with
        deck := rest,
        playerHand := if p = .player then s.playerHand ++ [c] else s.playerHand,
        aiHand := if p = .ai then s.aiHand ++ [c] else s.aiHand } :=
  drawCard_deck_cons sh p s c rest hdeck

theorem C1_draw_keeps_turn_witness :
    drawCard [] PlayerType.player cexDrawState =
      { cexDrawState with
        deck := [],
        playerHand :=
          if PlayerType.player = .player
          then cexDrawState.playerHand ++ [cardOf 0 .hearts .r4]
          else cexDrawState.playerHand,
        aiHand :=
          if PlayerType.player = .ai
          then cexDrawState.aiHand ++ [cardOf 0 .hearts .r4]
          else cexDrawState.aiHand } :=
  C1_draw_keeps_turn cexDrawState [] .player (cardOf 0 .hearts .r4) [] rfl

/-- C3, as written, is false: while pending-suit-selection is true, the
DrawCard intent is not rejected — the handler checks only turn and status,
so the draw goes through and changes the state. -/
theorem C3_counterexample :
    cexPendingState.isSuitSelectorOpen = true
    ∧ cexPendingState.status = GameStatus.playing
    ∧ handlePlayerDraw [] cexPendingState ≠ cexPendingState
    ∧ (handlePlayerDraw [] cexPendingState).playerHand
        = cexPendingState.playerHand ++ [cardOf 10 .clubs .r7] := by
  decide

/-- C3 amended: while pending-suit-selection is true, the handlers guard
only on turn ownership and lifecycle status — PlayCard and DrawCard are not
rejected on account of the open selector.  In particular, with the player to
move in a playing state and a non-empty draw pile, DrawCard draws a card and
changes the state (the UI relies on the modal overlay, not the handlers, to
block such intents). -/
theorem C3_pending_not_guarded (s : GameState) (sh : List Card)
    (c : Card) (rest : List Card)
    (hopen : s.isSuitSelectorOpen = true)
    (hturn : s.currentTurn = .player) (hstat : s.status = .playing)
    (hdeck : s.deck = c :: rest) :
    (handlePlayerDraw sh s).playerHand = s.playerHand ++ [c]
    ∧ handlePlayerDraw sh s ≠ s := by
  have hres : handlePlayerDraw sh s = drawCard sh .player s := by
    simp [handlePlayerDraw, hturn, hstat]
  rw [hres, drawCard_deck_cons sh .player s c rest hdeck]
  refine ⟨by simp, fun hcontra => ?_⟩
  have hlen := congrArg (fun t => t.playerHand.length) hcontra
  simp at hlen

theorem C3_pending_not_guarded_witness :
    (handlePlayerDraw [] cexPendingState).playerHand
      = cexPendingState.playerHand ++ [cardOf 10 .clubs .r7]
    ∧ handlePlayerDraw [] cexPendingState ≠ cexPendingState :=
  C3_pending_not_guarded cexPendingState [] (cardOf 10 .clubs .r7) [] rfl rfl rfl rfl

/-- C8, as written, is false: after a terminal status is reached, SelectSuit
is not rejected — `handleSuitSelect` has no status guard, and a won state
with the selector still open (the player went out with an 8) is mutated by
it. -/
theorem C8_counterexample :
    cexWonState.status = GameStatus.won
    ∧ cexWonState.isSuitSelectorOpen = true
    ∧ handleSuitSelect .hearts cexWonState ≠ cexWonState
    ∧ (handleSuitSelect .hearts cexWonState).currentTurn = PlayerType.ai := by
  decide

/-- C8 amended: when a hand empties during play the winner check sets status
`won` (player emptied) or `lost` (AI emptied), and afterwards PlayCard,
DrawCard and the AI move are rejected no-ops; but SelectSuit (and likewise
CancelSuitSelection) is not status-guarded: it still records the suit,
closes the selector and flips the turn to the AI in a terminal state. -/
theorem C8_terminal (s : GameState) (c : Card) (sh : List Card) (suit : Suit) :
    (s.status = .playing → s.playerHand = [] →
      (checkWinner s).status = .won ∧ (checkWinner s).winner = some .player)
    ∧ (s.status = .playing → s.playerHand ≠ [] → s.aiHand = [] →
      (checkWinner s).status = .lost ∧ (checkWinner s).winner = some .ai)
    ∧ (s.status = .won ∨ s.status = .lost →
      handlePlayerCardClick c s = s ∧ handlePlayerDraw sh s = s ∧ aiStep sh s = s)
    ∧ ((handleSuitSelect suit s).currentSuit = some suit
      ∧ (handleSuitSelect suit s).currentTurn = .ai
      ∧ (handleSuitSelect suit s).isSuitSelectorOpen = false
      ∧ (handleSuitSelect suit s).status = s.status) := by
  refine ⟨fun hp hh => ?_, fun hp hh ha => ?_, fun hterm => ?_, by simp [handleSuitSelect]⟩
  · simp [checkWinner, hp, hh]
  · simp [checkWinner, hp, hh, ha]
  · have hstat : s.status ≠ .playing := by
      rcases hterm with h | h <;> simp [h]
    refine ⟨?_, ?_, ?_⟩
    · simp [handlePlayerCardClick, hstat]
    · simp [handlePlayerDraw, hstat]
    · simp [aiStep, hstat]

theorem C8_terminal_witness :
    ((checkWinner cexEmptyHandState).status = GameStatus.won
      ∧ (checkWinner cexEmptyHandState).winner = some PlayerType.player)
    ∧ (handlePlayerCardClick (cardOf 22 .spades .r4) cexWonState = cexWonState
      ∧ handlePlayerDraw [] cexWonState = cexWonState
      ∧ aiStep [] cexWonState = cexWonState)
    ∧ (handleSuitSelect .hearts cexWonState).currentTurn = PlayerType.ai := by
  refine ⟨(C8_terminal cexEmptyHandState (cardOf 22 .spades .r4) [] .hearts).1 rfl rfl, ?_, ?_⟩
  · exact (C8_terminal cexWonState (cardOf 22 .spades .r4) [] .hearts).2.2.1 (Or.inl rfl)
  · exact (C8_terminal cexWonState (cardOf 22 .spades .r4) [] .hearts).2.2.2.2.1

/-- C9: in a playing state (with its never-empty discard pile), a PlayCard
attempt that fails `isValidMove` or whose card id is absent from the hand
leaves the whole state unchanged. -/
theorem C9_rejected_play_noop (s : GameState) (c : Card) (top : Card)
    (hstat : s.status = .playing)
    (htop : s.discardPile.getLast? = some top)
    (hrej : isValidMove c top s.currentSuit = false
      ∨ (s.playerHand.any fun x => x.id = c.id) = false) :
    handlePlayerCardClick c s = s := by
  unfold handlePlayerCardClick
  rw [htop]
  rcases hrej with h | h
  · simp [h]
  · by_cases hv : isValidMove c top s.currentSuit <;> simp [hv, h]

theorem C9_rejected_play_noop_witness :
    handlePlayerCardClick (cardOf 30 .diamonds .r3) cexDrawState = cexDrawState
    ∧ handlePlayerCardClick (cardOf 31 .spades .r9) cexDrawState = cexDrawState := by
  constructor
  · exact C9_rejected_play_noop cexDrawState (cardOf 30 .diamonds .r3)
      (cardOf 1 .spades .r9) rfl rfl (Or.inl (by decide))
  · exact C9_rejected_play_noop cexDrawState (cardOf 31 .spades .r9)
      (cardOf 1 .spades .r9) rfl rfl (Or.inr (by decide))

/-- C2: evaluation at the failing input.  Pre-play active suit is diamonds
(an 8♠ is on top with diamonds chosen for it); the player plays 8♥ (selector
opens), then cancels.  The discard pile and the 8 are restored, but the
active suit is re-derived from the uncovered card's printed suit — spades —
instead of the pre-play diamonds, because `GameState` holds no suit-history
stack. -/
theorem C2_cancel_wrong_suit :
    (handlePlayerCardClick eightHearts cexNestedState).isSuitSelectorOpen = true
    ∧ (handlePlayerCardClick eightHearts cexNestedState).discardPile
        = cexNestedState.discardPile ++ [eightHearts]
    ∧ (handleCancelSuitSelection (handlePlayerCardClick eightHearts cexNestedState)).discardPile
        = cexNestedState.discardPile
    ∧ (handleCancelSuitSelection (handlePlayerCardClick eightHearts cexNestedState)).playerHand
        = [cardOf 44 .diamonds .r9, eightHearts]
    ∧ cexNestedState.currentSuit = some Suit.diamonds
    ∧ (handleCancelSuitSelection (handlePlayerCardClick eightHearts cexNestedState)).currentSuit
        = some Suit.spades := by
  decide

/-- C6, as written, is false at the tie-break: with remaining hand one heart
then one spade (a tie), the `reduce` keeps the *right* operand on a
non-strict comparison, so the later key — spades — wins, not hearts as the
claimed hearts-diamonds-clubs-spades precedence would demand. -/
theorem C6_counterexample :
    (aiStep [] cexAiState).discardPile
      = cexAiState.discardPile ++ [cardOf 53 .diamonds .r8]
    ∧ (aiStep [] cexAiState).currentSuit = some Suit.spades
    ∧ Suit.spades ≠ Suit.hearts := by
  decide

/-- State for exercising the reshuffle branch: empty draw pile, discard
pile c1, c2, c3 with c3 on top. -/
def cexReshuffleState : GameState :=
  { deck := [],
    discardPile := [cardOf 60 .hearts .r2, cardOf 61 .clubs .r5, cardOf 62 .spades .rJ],
    playerHand := [cardOf 63 .diamonds .r3],
    aiHand := [cardOf 64 .hearts .r9],
    currentTurn := .player, currentSuit := some .spades,
    status := .playing, winner := none, isSuitSelectorOpen := false }

/-- C7: with an empty draw pile and more than one discard card, DrawCard
detaches the top discard card (leaving the discard pile as exactly that
card), the new draw pile is the shuffle outcome — a permutation of the
remaining discard cards — and its head card moves into the acting hand. -/
theorem C7_reshuffle (s : GameState) (sh : List Card) (p : PlayerType)
    (ds : List Card) (top : Card)
    (hdeck : s.deck = [])
    (hdisc : s.discardPile = ds ++ [top])
    (hds : ds ≠ [])
    (hsh : sh.Perm ds) :
    ∃ c rest, sh = c :: rest
      ∧ drawCard sh p s =
        { s with
          deck := rest,
          discardPile := [top],
          playerHand := if p = .player then s.playerHand ++ [c] else s.playerHand,
          aiHand := if p = .ai then s.aiHand ++ [c] else s.aiHand } := by
  have hshne : sh ≠ [] := by
    intro h
    apply hds
    rw [h] at hsh
    exact List.Perm.eq_nil hsh.symm
  obtain ⟨c, rest, rfl⟩ := List.exists_cons_of_ne_nil hshne
  refine ⟨c, rest, rfl, ?_⟩
  simp [drawCard, hdeck, hdisc, List.getLast?_concat, drawStep, hds]

theorem C7_reshuffle_witness :
    ∃ c rest,
      ([cardOf 60 .hearts .r2, cardOf 61 .clubs .r5] : List Card) = c :: rest
      ∧ drawCard [cardOf 60 .hearts .r2, cardOf 61 .clubs .r5] .player cexReshuffleState =
        { cexReshuffleState with
          deck := rest,
          discardPile := [cardOf 62 .spades .rJ],
          playerHand :=
            if PlayerType.player = .player
            then cexReshuffleState.playerHand ++ [c]
            else cexReshuffleState.playerHand,
          aiHand :=
            if PlayerType.player = .ai
            then cexReshuffleState.aiHand ++ [c]
            else cexReshuffleState.aiHand } :=
  C7_reshuffle cexReshuffleState [cardOf 60 .hearts .r2, cardOf 61 .clubs .r5] .player
    [cardOf 60 .hearts .r2, cardOf 61 .clubs .r5] (cardOf 62 .spades .rJ)
    rfl rfl (by decide) (List.Perm.refl _)

/-- C10: immediately after StartGame, for every shuffle outcome, each hand
has 8 cards, the discard pile has exactly 1 card, the draw pile has 35, the
player is to move, no suit selection is pending, status is playing, and the
active suit is the suit of the single discard card. -/
theorem C10_startNewGame_shape (d : List Card) (hd : d.Perm createDeck) :
    (startNewGame d).playerHand.length = 8
    ∧ (startNewGame d).aiHand.length = 8
    ∧ (startNewGame d).discardPile.length = 1
    ∧ (startNewGame d).deck.length = 35
    ∧ (startNewGame d).currentTurn = .player
    ∧ (startNewGame d).isSuitSelectorOpen = false
    ∧ (startNewGame d).status = .playing
    ∧ ∃ first, (startNewGame d).discardPile = [first]
        ∧ (startNewGame d).currentSuit = some first.suit := by
  have hlen : d.length = 52 := by
    rw [hd.length_eq]
    rfl
  obtain ⟨first, rest2, hr⟩ : ∃ a l, (d.drop 8).drop 8 = a :: l := by
    cases hdd : (d.drop 8).drop 8 with
    | nil =>
      exfalso
      have h36 : ((d.drop 8).drop 8).length = 36 := by
        simp [hlen]
      rw [hdd] at h36
      simp at h36
    | cons a l => exact ⟨a, l, rfl⟩
  have hrestlen : rest2.length = 35 := by
    have := congrArg List.length hr
    simp [hlen] at this
    omega
  simp only [startNewGame, dealCards, hr]
  refine ⟨?_, ?_, ?_, ?_, ?_, ?_, ?_, ?_⟩
  · simp [hlen]
  · simp [hlen]
  · trivial
  · simpa using hrestlen
  · trivial
  · trivial
  · trivial
  · exact ⟨first, rfl, rfl⟩

theorem C10_startNewGame_shape_witness :
    (startNewGame createDeck).playerHand.length = 8
    ∧ (startNewGame createDeck).aiHand.length = 8
    ∧ (startNewGame createDeck).discardPile.length = 1
    ∧ (startNewGame createDeck).deck.length = 35
    ∧ (startNewGame createDeck).currentTurn = .player
    ∧ (startNewGame createDeck).isSuitSelectorOpen = false
    ∧ (startNewGame createDeck).status = .playing
    ∧ ∃ first, (startNewGame createDeck).discardPile = [first]
        ∧ (startNewGame createDeck).currentSuit = some first.suit :=
  C10_startNewGame_shape createDeck (List.Perm.refl _)

theorem perm_cons_filter_of_mem (c : Card) (l : List Card) (hc : c ∈ l)
    (hnd : (l.map Card.id).Nodup) :
    l.Perm (c :: l.filter fun x => x.id ≠ c.id) := by
  induction l with
  | nil => cases hc
  | cons x xs ih =>
    rw [List.map_cons, List.nodup_cons] at hnd
    obtain ⟨hxid, hndxs⟩ := hnd
    rcases List.mem_cons.mp hc with rfl | hcxs
    · have hfil : (xs.filter fun a => a.id ≠ c.id) = xs := by
        apply List.filter_eq_self.mpr
        intro a ha
        simp only [ne_eq, decide_eq_true_eq]
        intro hEq
        exact hxid (hEq ▸ List.mem_map_of_mem Card.id ha)
      have h2 : ((c :: xs).filter fun a => a.id ≠ c.id) = xs := by
        simp only [List.filter_cons]
        rw [if_neg (by simp)]
        exact hfil
      rw [h2]
    · have hxc : x.id ≠ c.id := by
        intro hEq
        exact hxid (hEq ▸ List.mem_map_of_mem Card.id hcxs)
      have hperm := ih hcxs hndxs
      have hfil : ((x :: xs).filter fun a => a.id ≠ c.id)
          = x :: (xs.filter fun a => a.id ≠ c.id) := by
        simp [List.filter_cons, hxc]
      rw [hfil]
      exact ((hperm.cons x).trans (List.Perm.swap c x _))

theorem eq_dropLast_append_last {l : List Card} {a : Card} (h : l.getLast? = some a) :
    l = l.dropLast ++ [a] :=
  (List.dropLast_append_getLast? a (by simp [Option.mem_def, h])).symm

/-- Multiset view of the four zones. -/
theorem coe_zones (s : GameState) :
    ((zones s : List Card) : Multiset Card)
      = (s.deck : Multiset Card) + s.discardPile + s.playerHand + s.aiHand := by
  simp [zones, ← Multiset.coe_add, add_assoc]

theorem zones_select (suit : Suit) (s : GameState) :
    zones (handleSuitSelect suit s) = zones s :=
  rfl

theorem zones_checkWinner (s : GameState) :
    zones (checkWinner s) = zones s := by
  unfold checkWinner
  split
  · rfl
  · split
    · rfl
    · split <;> rfl

theorem zones_cancel_perm (s : GameState) :
    (zones (handleCancelSuitSelection s)).Perm (zones s) := by
  unfold handleCancelSuitSelection
  cases hlast : s.discardPile.getLast? with
  | none => exact List.Perm.refl _
  | some e =>
    cases hlast2 : s.discardPile.dropLast.getLast? with
    | none => exact List.Perm.refl _
    | some newTop =>
      have hdisc : s.discardPile = s.discardPile.dropLast ++ [e] :=
        eq_dropLast_append_last hlast
      rw [← Multiset.coe_eq_coe, coe_zones, coe_zones]
      simp only
      conv_rhs => rw [hdisc]
      simp only [← Multiset.coe_add, Multiset.coe_singleton]
      abel

theorem zones_startNewGame (d : List Card) (h52 : d.length = 52) :
    (zones (startNewGame d)).Perm d := by
  obtain ⟨first, rest2, hr⟩ : ∃ a l, (d.drop 8).drop 8 = a :: l := by
    cases hdd : (d.drop 8).drop 8 with
    | nil =>
      exfalso
      have h36 : ((d.drop 8).drop 8).length = 36 := by simp [h52]
      rw [hdd] at h36
      simp at h36
    | cons a l => exact ⟨a, l, rfl⟩
  simp only [startNewGame, dealCards, hr]
  rw [← Multiset.coe_eq_coe, coe_zones]
  simp only
  have hd' : d = d.take 8 ++ ((d.drop 8).take 8 ++ (first :: rest2)) := by
    rw [← hr, List.take_append_drop, List.take_append_drop]
  conv_rhs => rw [hd']
  simp only [← Multiset.coe_add, Multiset.coe_singleton, ← Multiset.cons_coe,
    ← Multiset.singleton_add]
  abel

theorem coe_zones_drawStep (c : Card) (rest dp : List Card) (p : PlayerType) (s : GameState) :
    ((zones (drawStep (c :: rest) dp p s) : List Card) : Multiset Card)
      = ↑rest + ↑dp + ↑s.playerHand + ↑s.aiHand + {c} := by
  cases p <;>
    simp only [drawStep, zones, reduceIte, ← Multiset.coe_add, Multiset.coe_singleton] <;>
    abel

theorem zones_playCard_perm (c : Card) (s : GameState) (hc : c ∈ s.playerHand)
    (hnd : (s.playerHand.map Card.id).Nodup) :
    (zones (handlePlayerCardClick c s)).Perm (zones s) := by
  have hperm := perm_cons_filter_of_mem c s.playerHand hc hnd
  have hm : (s.playerHand : Multiset Card)
      = {c} + ↑(s.playerHand.filter fun x => x.id ≠ c.id) := by
    rw [Multiset.coe_eq_coe.mpr hperm, ← Multiset.cons_coe, ← Multiset.singleton_add]
  unfold handlePlayerCardClick
  split
  · exact List.Perm.refl _
  · split
    · exact List.Perm.refl _
    · split
      · split
        · split
          · rw [← Multiset.coe_eq_coe, coe_zones, coe_zones]
            simp only
            rw [hm]
            simp only [← Multiset.coe_add, Multiset.coe_singleton]
            abel
          · rw [← Multiset.coe_eq_coe, coe_zones, coe_zones]
            simp only
            rw [hm]
            simp only [← Multiset.coe_add, Multiset.coe_singleton]
            abel
        · exact List.Perm.refl _
      · exact List.Perm.refl _

theorem zones_draw_perm (sh : List Card) (p : PlayerType) (s : GameState)
    (hsh : sh.Perm s.discardPile.dropLast) :
    (zones (drawCard sh p s)).Perm (zones s) := by
  unfold drawCard
  split
  case isTrue hdeck =>
    split
    · exact List.Perm.refl _
    case isFalse hlen =>
      cases htop : s.discardPile.getLast? with
      | none => exact List.Perm.refl _
      | some top =>
        cases sh with
        | nil => exact List.Perm.refl _
        | cons c rest =>
          have hdisc : s.discardPile = s.discardPile.dropLast ++ [top] :=
            eq_dropLast_append_last htop
          have hm : ({c} + (rest : Multiset Card)) = ↑s.discardPile.dropLast := by
            rw [Multiset.singleton_add, Multiset.cons_coe]
            exact Multiset.coe_eq_coe.mpr hsh
          rw [← Multiset.coe_eq_coe, coe_zones_drawStep, coe_zones, hdeck]
          conv_rhs => rw [hdisc]
          simp only [← Multiset.coe_add, Multiset.coe_singleton, Multiset.coe_nil]
          rw [← hm]
          abel
  case isFalse hdeck =>
    obtain ⟨c, rest, hc⟩ := List.exists_cons_of_ne_nil hdeck
    rw [← Multiset.coe_eq_coe, hc, coe_zones_drawStep, coe_zones, hc]
    simp only [← Multiset.cons_coe, ← Multiset.singleton_add]
    abel

theorem zones_playerDraw_perm (sh : List Card) (s : GameState)
    (hsh : sh.Perm s.discardPile.dropLast) :
    (zones (handlePlayerDraw sh s)).Perm (zones s) := by
  unfold handlePlayerDraw
  split
  · exact List.Perm.refl _
  · exact zones_draw_perm sh .player s hsh

theorem zones_aiStep_perm (sh : List Card) (s : GameState)
    (hsh : sh.Perm s.discardPile.dropLast)
    (hnd : (s.aiHand.map Card.id).Nodup) :
    (zones (aiStep sh s)).Perm (zones s) := by
  unfold aiStep
  split
  · exact List.Perm.refl _
  · cases htop : s.discardPile.getLast? with
    | none => exact List.Perm.refl _
    | some top =>
      simp only
      split
      case _ cardToPlay tl heq =>
        have hcmem : cardToPlay ∈ s.aiHand := by
          have h1 : cardToPlay ∈ (s.aiHand.filter fun c =>
              isValidMove c top s.currentSuit).filter fun c => c.rank ≠ .r8 := by
            rw [heq]; exact List.mem_cons_self _ _
          exact List.mem_of_mem_filter (List.mem_of_mem_filter h1)
        have hperm := perm_cons_filter_of_mem cardToPlay s.aiHand hcmem hnd
        have hm : (s.aiHand : Multiset Card)
            = {cardToPlay} + ↑(s.aiHand.filter fun x => x.id ≠ cardToPlay.id) := by
          rw [Multiset.coe_eq_coe.mpr hperm, ← Multiset.cons_coe, ← Multiset.singleton_add]
        rw [← Multiset.coe_eq_coe, coe_zones, coe_zones]
        simp only
        rw [hm]
        simp only [← Multiset.coe_add, Multiset.coe_singleton]
        abel
      case _ hne =>
        split
        case _ cardToPlay tl heq =>
          have hcmem : cardToPlay ∈ s.aiHand := by
            have h1 : cardToPlay ∈ (s.aiHand.filter fun c =>
                isValidMove c top s.currentSuit).filter fun c => c.rank = .r8 := by
              rw [heq]; exact List.mem_cons_self _ _
            exact List.mem_of_mem_filter (List.mem_of_mem_filter h1)
          have hperm := perm_cons_filter_of_mem cardToPlay s.aiHand hcmem hnd
          have hm : (s.aiHand : Multiset Card)
              = {cardToPlay} + ↑(s.aiHand.filter fun x => x.id ≠ cardToPlay.id) := by
            rw [Multiset.coe_eq_coe.mpr hperm, ← Multiset.cons_coe, ← Multiset.singleton_add]
          rw [← Multiset.coe_eq_coe, coe_zones, coe_zones]
          simp only
          rw [hm]
          simp only [← Multiset.coe_add, Multiset.coe_singleton]
          abel
        case _ => exact zones_draw_perm sh .ai s hsh

theorem createDeck_ids_nodup : ((createDeck.map Card.id).Nodup) := by decide

theorem zones_ids_nodup (s : GameState) (h : (zones s).Perm createDeck) :
    (s.playerHand.map Card.id).Nodup ∧ (s.aiHand.map Card.id).Nodup := by
  have h1 : ((zones s).map Card.id).Nodup := by
    rw [(h.map Card.id).nodup_iff]
    exact createDeck_ids_nodup
  rw [zones, List.map_append, List.map_append, List.map_append] at h1
  exact ⟨(h1.of_append_left).of_append_right, h1.of_append_right⟩

theorem step_preserves_perm {s s' : GameState} (hstep : Step s s')
    (hI : (zones s).Perm createDeck) : (zones s').Perm createDeck := by
  cases hstep with
  | startGame d hd =>
    exact (zones_startNewGame d (by rw [hd.length_eq]; rfl)).trans hd
  | playCard c hc =>
    exact (zones_playCard_perm c s hc (zones_ids_nodup s hI).1).trans hI
  | selectSuit suit ho =>
    rw [zones_select]; exact hI
  | cancelSelect ho =>
    exact (zones_cancel_perm s).trans hI
  | draw sh hsh =>
    exact (zones_playerDraw_perm sh s hsh).trans hI
  | aiMove sh hsh =>
    exact (zones_aiStep_perm sh s hsh (zones_ids_nodup s hI).2).trans hI
  | winCheck =>
    rw [zones_checkWinner]; exact hI

theorem createDeck_nodup : createDeck.Nodup :=
  createDeck_ids_nodup.of_map

/-- C5: in every state reachable from StartGame by any sequence of intents,
the four zones together are a permutation of the original 52-card deck: 52
cards in total, all identities distinct, and every original card identity
present exactly once. -/
theorem C5_conservation (s : GameState) (h : Reachable s) :
    (zones s).Perm createDeck
    ∧ (zones s).length = 52
    ∧ ((zones s).map Card.id).Nodup
    ∧ ∀ c ∈ createDeck, (zones s).count c = 1 := by
  obtain ⟨d, hd, hsteps⟩ := h
  have hperm : (zones s).Perm createDeck := by
    induction hsteps with
    | refl => exact (zones_startNewGame d (by rw [hd.length_eq]; rfl)).trans hd
    | tail hchain hstep ih => exact step_preserves_perm hstep ih
  refine ⟨hperm, ?_, ?_, ?_⟩
  · rw [hperm.length_eq]; rfl
  · rw [(hperm.map Card.id).nodup_iff]; exact createDeck_ids_nodup
  · intro c hcmem
    rw [hperm.count_eq]
    exact List.count_eq_one_of_mem createDeck_nodup hcmem

theorem C5_conservation_witness :
    Reachable (startNewGame createDeck)
    ∧ (zones (startNewGame createDeck)).Perm createDeck
    ∧ (zones (startNewGame createDeck)).length = 52
    ∧ ((zones (startNewGame createDeck)).map Card.id).Nodup
    ∧ ∀ c ∈ createDeck, (zones (startNewGame createDeck)).count c = 1 := by
  have hreach : Reachable (startNewGame createDeck) :=
    ⟨createDeck, List.Perm.refl _, Relation.ReflTransGen.refl⟩
  exact ⟨hreach, C5_conservation _ hreach⟩

theorem find?_append_none {α : Type} (p : α → Bool) {l1 : List α} (l2 : List α)
    (h : l1.find? p = none) : (l1 ++ l2).find? p = l2.find? p := by
  induction l1 with
  | nil => rfl
  | cons x xs ih =>
    cases hx : p x with
    | true =>
      rw [List.find?_cons_of_pos _ hx] at h
      cases h
    | false =>
      rw [List.find?_cons_of_neg _ (by simp [hx])] at h
      rw [List.cons_append, List.find?_cons_of_neg _ (by simp [hx])]
      exact ih h

theorem find?_append_some {α : Type} (p : α → Bool) {l1 : List α} (l2 : List α)
    {a : α} (h : l1.find? p = some a) : (l1 ++ l2).find? p = some a := by
  induction l1 with
  | nil => cases h
  | cons x xs ih =>
    cases hx : p x with
    | true =>
      rw [List.find?_cons_of_pos _ hx] at h
      rw [List.cons_append, List.find?_cons_of_pos _ hx]
      exact h
    | false =>
      rw [List.find?_cons_of_neg _ (by simp [hx])] at h
      rw [List.cons_append, List.find?_cons_of_neg _ (by simp [hx])]
      exact ih h

theorem lookup_bump_self (acc : List (Suit × Nat)) (st : Suit) :
    lookupCount (bump acc st) st = some ((lookupCount acc st).getD 0 + 1) := by
  unfold bump
  by_cases h : (acc.any fun p => p.1 = st) = true
  · rw [if_pos h]
    unfold lookupCount
    rw [List.find?_map]
    have hcomp : ((fun p : Suit × Nat => decide (p.1 = st)) ∘
        fun p => if p.1 = st then (p.1, p.2 + 1) else p)
        = fun p : Suit × Nat => decide (p.1 = st) := by
      funext q
      by_cases hq : q.1 = st <;> simp [hq]
    rw [hcomp]
    obtain ⟨q, hqfind⟩ : ∃ q, acc.find? (fun p => p.1 = st) = some q := by
      cases hf : acc.find? (fun p => p.1 = st) with
      | none =>
        rw [List.find?_eq_none] at hf
        rw [List.any_eq_true] at h
        obtain ⟨x, hx1, hx2⟩ := h
        exact absurd hx2 (by simpa using hf x hx1)
      | some q => exact ⟨q, rfl⟩
    have hq1 : q.1 = st := by simpa using List.find?_some hqfind
    rw [hqfind]
    simp [hq1]
  · rw [if_neg h]
    unfold lookupCount
    have hnone : acc.find? (fun p => p.1 = st) = none := by
      rw [List.find?_eq_none]
      intro x hx
      simp only [decide_eq_true_eq]
      intro hcontra
      exact h (List.any_eq_true.mpr ⟨x, hx, by simpa using hcontra⟩)
    rw [find?_append_none _ _ hnone, hnone]
    simp

theorem lookup_bump_other (acc : List (Suit × Nat)) (st st' : Suit) (h : st' ≠ st) :
    lookupCount (bump acc st) st' = lookupCount acc st' := by
  unfold bump
  by_cases hany : (acc.any fun p => p.1 = st) = true
  · rw [if_pos hany]
    unfold lookupCount
    rw [List.find?_map]
    have hcomp : ((fun p : Suit × Nat => decide (p.1 = st')) ∘
        fun p => if p.1 = st then (p.1, p.2 + 1) else p)
        = fun p : Suit × Nat => decide (p.1 = st') := by
      funext q
      by_cases hq : q.1 = st <;> simp [hq]
    rw [hcomp]
    cases hf : acc.find? (fun p => p.1 = st') with
    | none => simp
    | some q =>
      have hq1 : q.1 = st' := by simpa using List.find?_some hf
      have hqne : ¬ q.1 = st := by rw [hq1]; exact h
      simp [hqne]
  · rw [if_neg hany]
    unfold lookupCount
    cases hf : acc.find? (fun p => p.1 = st') with
    | none =>
      rw [find?_append_none _ _ hf]
      rw [List.find?_cons_of_neg _ (by simp [Ne.symm h])]
      rfl
    | some q =>
      rw [find?_append_some _ _ hf]

theorem countsOf_append (ss : List Suit) (x : Suit) :
    countsOf (ss ++ [x]) = bump (countsOf ss) x := by
  unfold countsOf
  rw [List.foldl_append]
  rfl

theorem countsOf_lookup (ss : List Suit) (st : Suit) :
    lookupCount (countsOf ss) st = if st ∈ ss then some (ss.count st) else none := by
  induction ss using List.reverseRecOn with
  | nil => simp [countsOf, lookupCount]
  | append_singleton ss x ih =>
    rw [countsOf_append]
    by_cases hx : st = x
    · subst hx
      rw [lookup_bump_self, ih]
      by_cases hmem : st ∈ ss
      · simp [hmem, List.count_append]
      · simp [hmem, List.count_append, List.count_eq_zero.mpr hmem]
    · rw [lookup_bump_other _ _ _ hx, ih]
      by_cases hmem : st ∈ ss
      · simp [hmem, hx, List.count_append]
      · simp [hmem, hx]

theorem mem_keys_iff_any (acc : List (Suit × Nat)) (st : Suit) :
    st ∈ acc.map Prod.fst ↔ (acc.any fun p => p.1 = st) = true := by
  rw [List.any_eq_true, List.mem_map]
  constructor
  · rintro ⟨p, hp, rfl⟩
    exact ⟨p, hp, by simp⟩
  · rintro ⟨p, hp, hpst⟩
    exact ⟨p, hp, by simpa using hpst⟩

theorem keys_bump (acc : List (Suit × Nat)) (st : Suit) :
    (bump acc st).map Prod.fst
      = if st ∈ acc.map Prod.fst then acc.map Prod.fst
        else acc.map Prod.fst ++ [st] := by
  unfold bump
  by_cases h : (acc.any fun p => p.1 = st) = true
  · rw [if_pos h, if_pos ((mem_keys_iff_any acc st).mpr h), List.map_map]
    apply List.map_congr_left
    intro p _
    by_cases hp1 : p.1 = st <;> simp [hp1]
  · rw [if_neg h, if_neg (fun hm => h ((mem_keys_iff_any acc st).mp hm))]
    simp

theorem keys_countsOf (ss : List Suit) :
    (countsOf ss).map Prod.fst
      = ss.foldl (fun ks st => if st ∈ ks then ks else ks ++ [st]) [] := by
  suffices h : ∀ (tt : List Suit) (acc : List (Suit × Nat)),
      (tt.foldl bump acc).map Prod.fst
        = tt.foldl (fun ks st => if st ∈ ks then ks else ks ++ [st]) (acc.map Prod.fst) by
    exact h ss []
  intro tt
  induction tt with
  | nil => intro acc; rfl
  | cons x xs ih =>
    intro acc
    rw [List.foldl_cons, List.foldl_cons, ih, keys_bump]

theorem foldl_upd_dF (ss : List Suit) : ∀ ks : List Suit,
    ss.foldl (fun ks st => if st ∈ ks then ks else ks ++ [st]) ks
      = ks ++ dF (ss.filter fun y => y ∉ ks) := by
  induction ss with
  | nil => intro ks; simp [dF]
  | cons x xs ih =>
    intro ks
    rw [List.foldl_cons]
    by_cases hx : x ∈ ks
    · rw [if_pos hx, ih]
      have hfil : ((x :: xs).filter fun y => y ∉ ks) = xs.filter fun y => y ∉ ks := by
        rw [List.filter_cons, if_neg (by simpa using hx)]
      rw [hfil]
    · rw [if_neg hx, ih]
      have hfil : ((x :: xs).filter fun y => y ∉ ks)
          = x :: (xs.filter fun y => y ∉ ks) := by
        rw [List.filter_cons, if_pos (by simpa using hx)]
      rw [hfil]
      have hdf : dF (x :: (xs.filter fun y => y ∉ ks))
          = x :: dF ((xs.filter fun y => y ∉ ks).filter fun y => y ≠ x) := by
        rw [dF]
      rw [hdf]
      have hff : ((xs.filter fun y => y ∉ ks).filter fun y => y ≠ x)
          = xs.filter fun y => y ∉ ks ++ [x] := by
        rw [List.filter_filter]
        apply List.filter_congr
        intro y _
        by_cases h1 : y = x <;> by_cases h2 : y ∈ ks <;>
          simp [h1, h2, List.mem_append]
      rw [hff, List.append_assoc, List.singleton_append]

theorem split_unique {α : Type} : ∀ (u₁ : List α) (u₂ w₁ w₂ : List α) (a : α),
    u₁ ++ a :: w₁ = u₂ ++ a :: w₂ → a ∉ u₁ → a ∉ u₂ → u₁ = u₂ ∧ w₁ = w₂ := by
  intro u₁
  induction u₁ with
  | nil =>
    intro u₂ w₁ w₂ a heq h1 h2
    cases u₂ with
    | nil => simpa using heq
    | cons y u₀ =>
      simp only [List.nil_append, List.cons_append, List.cons.injEq] at heq
      obtain ⟨ha, _⟩ := heq
      subst ha
      exact absurd (List.mem_cons_self _ _) h2
  | cons x u₀ ih =>
    intro u₂ w₁ w₂ a heq h1 h2
    cases u₂ with
    | nil =>
      simp only [List.cons_append, List.nil_append, List.cons.injEq] at heq
      obtain ⟨ha, _⟩ := heq
      subst ha
      exact absurd (List.mem_cons_self _ _) h1
    | cons y u₁' =>
      simp only [List.cons_append, List.cons.injEq] at heq
      obtain ⟨hxy, hrest⟩ := heq
      subst hxy
      have h1' : a ∉ u₀ := fun hm => h1 (List.mem_cons_of_mem _ hm)
      have h2' : a ∉ u₁' := fun hm => h2 (List.mem_cons_of_mem _ hm)
      obtain ⟨hu, hw⟩ := ih u₁' w₁ w₂ a hrest h1' h2'
      exact ⟨by rw [hu], hw⟩

theorem dF_split : ∀ (ss u' w' : List Suit) (S : Suit),
    dF ss = u' ++ S :: w' →
    ∃ u w, ss = u ++ S :: w ∧ S ∉ u ∧ ∀ st ∈ u', st ∈ u := by
  intro ss
  induction ss using dF.induct with
  | case1 =>
    intro u' w' S h
    rw [dF] at h
    exact absurd h.symm (List.append_ne_nil_of_right_ne_nil _ (by simp))
  | case2 x xs ih =>
    intro u' w' S h
    rw [dF] at h
    cases u' with
    | nil =>
      rw [List.nil_append] at h
      injection h with h1 h2
      subst h1
      exact ⟨[], xs, rfl, by simp, by simp⟩
    | cons y u₀ =>
      rw [List.cons_append] at h
      injection h with h1 h2
      obtain ⟨u₁, w₁, hfsplit, hSu₁, hmem⟩ := ih u₀ w' S h2
      have hSfil : S ∈ xs.filter fun y => y ≠ x := by
        rw [hfsplit]
        exact List.mem_append_right _ (List.mem_cons_self _ _)
      have hSxs : S ∈ xs := List.mem_of_mem_filter hSfil
      have hSx : S ≠ x := by simpa using List.of_mem_filter hSfil
      obtain ⟨u₂, w₂, hxs, hSu₂⟩ := List.eq_append_cons_of_mem hSxs
      have hfil2 : (xs.filter fun y => y ≠ x)
          = (u₂.filter fun y => y ≠ x) ++ S :: (w₂.filter fun y => y ≠ x) := by
        rw [hxs, List.filter_append, List.filter_cons, if_pos (by simpa using hSx)]
      have hSu₂f : S ∉ u₂.filter fun y => y ≠ x :=
        fun hm => hSu₂ (List.mem_of_mem_filter hm)
      obtain ⟨hu12, _⟩ := split_unique u₁ (u₂.filter fun y => y ≠ x) w₁
        (w₂.filter fun y => y ≠ x) S (by rw [← hfsplit, hfil2]) hSu₁ hSu₂f
      refine ⟨x :: u₂, w₂, by rw [hxs, List.cons_append], ?_, ?_⟩
      · intro hm
        rcases List.mem_cons.mp hm with h | h
        · exact hSx h
        · exact hSu₂ h
      · intro st hst
        rcases List.mem_cons.mp hst with rfl | hst0
        · rw [← h1]
          exact List.mem_cons_self _ _
        · have := hmem st hst0
          rw [hu12] at this
          exact List.mem_cons_of_mem _ (List.mem_of_mem_filter this)

theorem foldl_last_max (v : Suit → Option Nat) :
    ∀ (K : List Suit) (a : Suit),
    (v a).isSome = true →
    (∀ k ∈ K, (v k).isSome = true) →
    ∃ u w,
      a :: K = u ++ (K.foldl (fun x y => if optGt (v x) (v y) then x else y) a) :: w
      ∧ (∀ z ∈ u, (v z).getD 0
          ≤ (v (K.foldl (fun x y => if optGt (v x) (v y) then x else y) a)).getD 0)
      ∧ (∀ z ∈ w, (v z).getD 0
          < (v (K.foldl (fun x y => if optGt (v x) (v y) then x else y) a)).getD 0) := by
  intro K
  induction K with
  | nil =>
    intro a ha _
    exact ⟨[], [], rfl, by simp, by simp⟩
  | cons b K' ih =>
    intro a ha hK
    have hb : (v b).isSome = true := hK b (List.mem_cons_self _ _)
    have hK' : ∀ k ∈ K', (v k).isSome = true := fun k hk => hK k (List.mem_cons_of_mem _ hk)
    obtain ⟨m, hm⟩ := Option.isSome_iff_exists.mp ha
    obtain ⟨n, hn⟩ := Option.isSome_iff_exists.mp hb
    simp only [List.foldl_cons]
    by_cases hgt : optGt (v a) (v b) = true
    · rw [if_pos hgt]
      have hblt : (v b).getD 0 < (v a).getD 0 := by
        rw [hm, hn] at hgt ⊢
        unfold optGt at hgt
        simpa using of_decide_eq_true hgt
      obtain ⟨u, w, hsplit, hu, hw⟩ := ih a ha hK'
      cases u with
      | nil =>
        rw [List.nil_append] at hsplit
        injection hsplit with h1 h2
        refine ⟨[], b :: w, ?_, by simp, ?_⟩
        · rw [List.nil_append, ← h1, ← h2]
        · intro z hz
          rcases List.mem_cons.mp hz with rfl | hzw
          · rw [← h1]
            exact hblt
          · exact hw z hzw
      | cons a₀ u₀ =>
        rw [List.cons_append] at hsplit
        injection hsplit with h1 h2
        refine ⟨a :: b :: u₀, w, ?_, ?_, hw⟩
        · rw [List.cons_append, List.cons_append]
          conv_lhs => rw [h2]
        · intro z hz
          have haR : (v a).getD 0
              ≤ (v (K'.foldl (fun x y => if optGt (v x) (v y) then x else y) a)).getD 0 := by
            have h' := hu a₀ (List.mem_cons_self _ _)
            rwa [← h1] at h'
          rcases List.mem_cons.mp hz with rfl | hz2
          · exact haR
          rcases List.mem_cons.mp hz2 with rfl | hz3
          · exact le_of_lt (lt_of_lt_of_le hblt haR)
          · exact hu z (List.mem_cons_of_mem _ hz3)
    · rw [if_neg hgt]
      have hle : (v a).getD 0 ≤ (v b).getD 0 := by
        rw [hm, hn] at hgt ⊢
        unfold optGt at hgt
        simp only [decide_eq_true_eq] at hgt
        simpa using Nat.le_of_not_lt hgt
      obtain ⟨u, w, hsplit, hu, hw⟩ := ih b hb hK'
      have hbR : (v b).getD 0
          ≤ (v (K'.foldl (fun x y => if optGt (v x) (v y) then x else y) b)).getD 0 := by
        cases u with
        | nil =>
          rw [List.nil_append] at hsplit
          injection hsplit with h1 _
          rw [← h1]
        | cons b₀ u₀ =>
          rw [List.cons_append] at hsplit
          injection hsplit with h1 _
          have h' := hu b₀ (List.mem_cons_self _ _)
          rwa [← h1] at h'
      refine ⟨a :: u, w, ?_, ?_, hw⟩
      · rw [List.cons_append, ← hsplit]
      · intro z hz
        rcases List.mem_cons.mp hz with rfl | hz2
        · exact le_trans hle hbR
        · exact hu z hz2

theorem optGt_none_left (x : Option Nat) : optGt none x = false := by
  cases x <;> rfl

theorem mem_keys_countsOf (ss : List Suit) (st : Suit) :
    st ∈ (countsOf ss).map Prod.fst ↔ st ∈ ss := by
  rw [mem_keys_iff_any]
  constructor
  · intro h
    rw [List.any_eq_true] at h
    obtain ⟨p, hp, hpst⟩ := h
    have hsome : (lookupCount (countsOf ss) st).isSome = true := by
      unfold lookupCount
      cases hf : (countsOf ss).find? (fun p => p.1 = st) with
      | none =>
        rw [List.find?_eq_none] at hf
        exact absurd hpst (hf p hp)
      | some q => rfl
    rw [countsOf_lookup] at hsome
    by_cases hm : st ∈ ss
    · exact hm
    · rw [if_neg hm] at hsome
      cases hsome
  · intro h
    have hlk : lookupCount (countsOf ss) st = some (ss.count st) := by
      rw [countsOf_lookup, if_pos h]
    unfold lookupCount at hlk
    cases hf : (countsOf ss).find? (fun p => p.1 = st) with
    | none => rw [hf] at hlk; cases hlk
    | some q =>
      rw [List.any_eq_true]
      have hq := List.find?_some hf
      exact ⟨q, List.mem_of_find?_eq_some hf, hq⟩

theorem bestSuit_spec (ss : List Suit) :
    (ss = [] → bestSuit (countsOf ss) = .hearts)
    ∧ (ss ≠ [] →
        bestSuit (countsOf ss) ∈ ss
        ∧ (∀ st ∈ ss, ss.count st ≤ ss.count (bestSuit (countsOf ss)))
        ∧ ∃ u w, ss = u ++ bestSuit (countsOf ss) :: w
          ∧ bestSuit (countsOf ss) ∉ u
          ∧ ∀ st ∈ ss, st ≠ bestSuit (countsOf ss)
            → ss.count st = ss.count (bestSuit (countsOf ss)) → st ∈ u) := by
  constructor
  · intro h
    subst h
    rfl
  · intro hne
    have hsome : ∀ st ∈ ss, (lookupCount (countsOf ss) st).isSome = true := by
      intro st hst
      rw [countsOf_lookup, if_pos hst]
      rfl
    have hvd : ∀ st ∈ ss, (lookupCount (countsOf ss) st).getD 0 = ss.count st := by
      intro st hst
      rw [countsOf_lookup, if_pos hst]
      rfl
    have hsplitK : ∃ uK wK,
        (countsOf ss).map Prod.fst = uK ++ bestSuit (countsOf ss) :: wK
        ∧ (∀ z ∈ uK, (lookupCount (countsOf ss) z).getD 0
            ≤ (lookupCount (countsOf ss) (bestSuit (countsOf ss))).getD 0)
        ∧ (∀ z ∈ wK, (lookupCount (countsOf ss) z).getD 0
            < (lookupCount (countsOf ss) (bestSuit (countsOf ss))).getD 0) := by
      cases hKc : (countsOf ss).map Prod.fst with
      | nil =>
        exfalso
        obtain ⟨x, hx⟩ := List.exists_mem_of_ne_nil ss hne
        have hxk := (mem_keys_countsOf ss x).mpr hx
        rw [hKc] at hxk
        cases hxk
      | cons k1 K' =>
        have hk1ss : k1 ∈ ss := (mem_keys_countsOf ss k1).mp
          (by rw [hKc]; exact List.mem_cons_self _ _)
        have hK'ss : ∀ k ∈ K', k ∈ ss := fun k hk => (mem_keys_countsOf ss k).mp
          (by rw [hKc]; exact List.mem_cons_of_mem _ hk)
        have hfold : bestSuit (countsOf ss)
            = K'.foldl (fun x y =>
                if optGt (lookupCount (countsOf ss) x) (lookupCount (countsOf ss) y)
                then x else y)
              (if optGt (lookupCount (countsOf ss) Suit.hearts)
                  (lookupCount (countsOf ss) k1)
                then Suit.hearts else k1) := by
          unfold bestSuit
          rw [hKc]
          simp only [List.foldl_cons]
        by_cases hg : optGt (lookupCount (countsOf ss) Suit.hearts)
            (lookupCount (countsOf ss) k1) = true
        · rw [if_pos hg] at hfold
          have hhsome : (lookupCount (countsOf ss) Suit.hearts).isSome = true := by
            cases hv : lookupCount (countsOf ss) Suit.hearts with
            | none => rw [hv, optGt_none_left] at hg; cases hg
            | some m => rfl
          have hhss : Suit.hearts ∈ ss := by
            rw [countsOf_lookup] at hhsome
            by_cases hm : Suit.hearts ∈ ss
            · exact hm
            · rw [if_neg hm] at hhsome; cases hhsome
          obtain ⟨u, w, hsplit, hu, hw⟩ := foldl_last_max (lookupCount (countsOf ss))
            K' Suit.hearts hhsome (fun k hk => hsome k (hK'ss k hk))
          rw [← hfold] at hsplit hu hw
          by_cases hk1h : k1 = Suit.hearts
          · refine ⟨u, w, ?_, hu, hw⟩
            rw [hk1h]
            exact hsplit
          · have hhK' : Suit.hearts ∈ K' := by
              have hmem := (mem_keys_countsOf ss Suit.hearts).mpr hhss
              rw [hKc] at hmem
              rcases List.mem_cons.mp hmem with h | h
              · exact absurd h.symm hk1h
              · exact h
            cases u with
            | nil =>
              exfalso
              rw [List.nil_append] at hsplit
              injection hsplit with h1 h2
              have hlt := hw Suit.hearts (h2 ▸ hhK')
              rw [← h1] at hlt
              exact lt_irrefl _ hlt
            | cons h₀ u₀ =>
              rw [List.cons_append] at hsplit
              injection hsplit with h1 h2
              refine ⟨k1 :: u₀, w, ?_, ?_, hw⟩
              · rw [List.cons_append]
                conv_lhs => rw [h2]
              · intro z hz
                rcases List.mem_cons.mp hz with rfl | hz0
                · obtain ⟨m, hm⟩ := Option.isSome_iff_exists.mp hhsome
                  obtain ⟨n, hn⟩ := Option.isSome_iff_exists.mp (hsome z hk1ss)
                  have hk1lt : (lookupCount (countsOf ss) z).getD 0
                      < (lookupCount (countsOf ss) Suit.hearts).getD 0 := by
                    rw [hm, hn] at hg
                    rw [hm, hn]
                    unfold optGt at hg
                    simpa using of_decide_eq_true hg
                  have hhle : (lookupCount (countsOf ss) Suit.hearts).getD 0
                      ≤ (lookupCount (countsOf ss) (bestSuit (countsOf ss))).getD 0 := by
                    have h' := hu h₀ (List.mem_cons_self _ _)
                    rwa [← h1] at h'
                  exact le_of_lt (lt_of_lt_of_le hk1lt hhle)
                · exact hu z (List.mem_cons_of_mem _ hz0)
        · rw [if_neg hg] at hfold
          obtain ⟨u, w, hsplit, hu, hw⟩ := foldl_last_max (lookupCount (countsOf ss))
            K' k1 (hsome k1 hk1ss) (fun k hk => hsome k (hK'ss k hk))
          rw [← hfold] at hsplit hu hw
          exact ⟨u, w, hsplit, hu, hw⟩
    obtain ⟨uK, wK, hK, huK, hwK⟩ := hsplitK
    have hRss : bestSuit (countsOf ss) ∈ ss := by
      apply (mem_keys_countsOf ss _).mp
      rw [hK]
      exact List.mem_append_right _ (List.mem_cons_self _ _)
    refine ⟨hRss, ?_, ?_⟩
    · intro st hst
      have hstK := (mem_keys_countsOf ss st).mpr hst
      rw [hK] at hstK
      rw [← hvd st hst, ← hvd _ hRss]
      rcases List.mem_append.mp hstK with h | h
      · exact huK st h
      · rcases List.mem_cons.mp h with h2 | h2
        · rw [h2]
        · exact le_of_lt (hwK st h2)
    · have hKdF : (countsOf ss).map Prod.fst = dF ss := by
        rw [keys_countsOf, foldl_upd_dF]
        have hfs : (ss.filter fun y => y ∉ ([] : List Suit)) = ss := by
          apply List.filter_eq_self.mpr
          intro a _
          simp
        rw [hfs, List.nil_append]
      obtain ⟨u, w, hss, hRu, humem⟩ := dF_split ss uK wK (bestSuit (countsOf ss))
        (by rw [← hKdF]; exact hK)
      refine ⟨u, w, hss, hRu, ?_⟩
      intro st hst hstne hcnt
      have hstK := (mem_keys_countsOf ss st).mpr hst
      rw [hK] at hstK
      rcases List.mem_append.mp hstK with h | h
      · exact humem st h
      · rcases List.mem_cons.mp h with h2 | h2
        · exact absurd h2 hstne
        · exfalso
          have hlt := hwK st h2
          rw [hvd st hst, hvd _ hRss, hcnt] at hlt
          exact lt_irrefl _ hlt

theorem suitCounts_eq (skipId : Nat) (hand : List Card) :
    suitCounts skipId hand
      = countsOf ((hand.filter fun c => c.id ≠ skipId).map Card.suit) := by
  suffices h : ∀ (l : List Card) (acc : List (Suit × Nat)),
      l.foldl (fun acc c => if c.id ≠ skipId then bump acc c.suit else acc) acc
        = ((l.filter fun c => c.id ≠ skipId).map Card.suit).foldl bump acc by
    exact h hand []
  intro l
  induction l with
  | nil => intro acc; rfl
  | cons x xs ih =>
    intro acc
    rw [List.foldl_cons]
    by_cases hx : x.id ≠ skipId
    · rw [if_pos hx, ih, List.filter_cons, if_pos (by simpa using hx),
        List.map_cons, List.foldl_cons]
    · rw [if_neg hx, ih, List.filter_cons, if_neg (by simpa using hx)]

theorem filter2_head (p q : Card → Bool) (pre post : List Card) (c : Card)
    (hpc : p c = true) (hqc : q c = true)
    (hpre : ∀ x ∈ pre, ¬ (p x = true ∧ q x = true)) :
    ((pre ++ c :: post).filter p).filter q = c :: (post.filter p).filter q := by
  have h1 : (pre.filter p).filter q = [] := by
    rw [List.filter_eq_nil_iff]
    intro a ha
    intro haq
    exact hpre a (List.mem_of_mem_filter ha) ⟨List.of_mem_filter ha, haq⟩
  rw [List.filter_append, List.filter_append, h1, List.nil_append,
    List.filter_cons, if_pos hpc, List.filter_cons, if_pos hqc]

/-- C6 amended: the opponent policy deterministically plays the first legal
non-8 card in hand order if one exists; otherwise, if a legal 8 exists, it
plays the first one and sets the active suit to a suit of maximal count in
the remaining hand — but ties are broken in favour of the tied suit whose
first card occurs *latest* in hand order (the JS reduce keeps the right
operand on a non-strict comparison), not by a fixed
hearts-diamonds-clubs-spades precedence; hearts is the default when no
cards remain.  Otherwise it draws. -/
theorem C6_ai_policy (s : GameState) (sh : List Card) (top : Card)
    (hturn : s.currentTurn = .ai) (hstat : s.status = .playing)
    (htop : s.discardPile.getLast? = some top) :
    (∀ pre c post, s.aiHand = pre ++ c :: post →
      isValidMove c top s.currentSuit = true → ¬ c.rank = .r8 →
      (∀ x ∈ pre, ¬ (isValidMove x top s.currentSuit = true ∧ ¬ x.rank = .r8)) →
      aiStep sh s =
        { s with
          aiHand := s.aiHand.filter fun x => x.id ≠ c.id,
          discardPile := s.discardPile ++ [c],
          currentTurn := .player,
          currentSuit := some c.suit })
    ∧ ((∀ x ∈ s.aiHand, ¬ (isValidMove x top s.currentSuit = true ∧ ¬ x.rank = .r8)) →
      ∀ pre c post, s.aiHand = pre ++ c :: post →
      isValidMove c top s.currentSuit = true → c.rank = .r8 →
      (∀ x ∈ pre, ¬ (isValidMove x top s.currentSuit = true ∧ x.rank = .r8)) →
      aiStep sh s =
        { s with
          aiHand := s.aiHand.filter fun x => x.id ≠ c.id,
          discardPile := s.discardPile ++ [c],
          currentTurn := .player,
          currentSuit := some (bestSuit (suitCounts c.id s.aiHand)) }
      ∧ (((s.aiHand.filter fun x => x.id ≠ c.id).map Card.suit) = [] →
          bestSuit (suitCounts c.id s.aiHand) = .hearts)
      ∧ (((s.aiHand.filter fun x => x.id ≠ c.id).map Card.suit) ≠ [] →
          bestSuit (suitCounts c.id s.aiHand)
              ∈ (s.aiHand.filter fun x => x.id ≠ c.id).map Card.suit
          ∧ (∀ st ∈ (s.aiHand.filter fun x => x.id ≠ c.id).map Card.suit,
              ((s.aiHand.filter fun x => x.id ≠ c.id).map Card.suit).count st
                ≤ ((s.aiHand.filter fun x => x.id ≠ c.id).map Card.suit).count
                    (bestSuit (suitCounts c.id s.aiHand)))
          ∧ ∃ u w, (s.aiHand.filter fun x => x.id ≠ c.id).map Card.suit
                = u ++ bestSuit (suitCounts c.id s.aiHand) :: w
              ∧ bestSuit (suitCounts c.id s.aiHand) ∉ u
              ∧ ∀ st ∈ (s.aiHand.filter fun x => x.id ≠ c.id).map Card.suit,
                  st ≠ bestSuit (suitCounts c.id s.aiHand)
                  → ((s.aiHand.filter fun x => x.id ≠ c.id).map Card.suit).count st
                    = ((s.aiHand.filter fun x => x.id ≠ c.id).map Card.suit).count
                        (bestSuit (suitCounts c.id s.aiHand))
                  → st ∈ u))
    ∧ ((∀ x ∈ s.aiHand, isValidMove x top s.currentSuit = false) →
      aiStep sh s = drawCard sh .ai s) := by
  have hguard : ¬ (s.currentTurn ≠ PlayerType.ai ∨ s.status ≠ GameStatus.playing) := by
    simp [hturn, hstat]
  refine ⟨?_, ?_, ?_⟩
  · intro pre c post hhand hvc h8 hpre
    have hne : ((s.aiHand.filter fun c => isValidMove c top s.currentSuit).filter
        fun c => c.rank ≠ .r8)
        = c :: ((post.filter fun c => isValidMove c top s.currentSuit).filter
            fun c => c.rank ≠ .r8) := by
      rw [hhand]
      exact filter2_head _ _ pre post c hvc (by simpa using h8)
        (fun x hx hcontra => hpre x hx ⟨hcontra.1, by simpa using hcontra.2⟩)
    unfold aiStep
    rw [if_neg hguard, htop]
    simp only [hne]
  · intro hno8 pre c post hhand hvc h8 hpre
    have hnonE : ((s.aiHand.filter fun c => isValidMove c top s.currentSuit).filter
        fun c => c.rank ≠ .r8) = [] := by
      rw [List.filter_eq_nil_iff]
      intro a ha hcontra
      obtain ⟨ham, hap⟩ := List.mem_filter.mp ha
      exact hno8 a ham ⟨hap, by simpa using hcontra⟩
    have hE : ((s.aiHand.filter fun c => isValidMove c top s.currentSuit).filter
        fun c => c.rank = .r8)
        = c :: ((post.filter fun c => isValidMove c top s.currentSuit).filter
            fun c => c.rank = .r8) := by
      rw [hhand]
      exact filter2_head _ _ pre post c hvc (by simpa using h8)
        (fun x hx hcontra => hpre x hx ⟨hcontra.1, by simpa using hcontra.2⟩)
    refine ⟨?_, ?_⟩
    · unfold aiStep
      rw [if_neg hguard, htop]
      simp only [hnonE, hE]
    · have hsc : suitCounts c.id s.aiHand
          = countsOf ((s.aiHand.filter fun x => x.id ≠ c.id).map Card.suit) :=
        suitCounts_eq c.id s.aiHand
      have hbs := bestSuit_spec ((s.aiHand.filter fun x => x.id ≠ c.id).map Card.suit)
      rw [← hsc] at hbs
      exact ⟨hbs.1, hbs.2⟩
  · intro hnone
    have hval : (s.aiHand.filter fun c => isValidMove c top s.currentSuit) = [] := by
      rw [List.filter_eq_nil_iff]
      intro a ha
      simp [hnone a ha]
    unfold aiStep
    rw [if_neg hguard, htop]
    simp only [hval, List.filter_nil]

theorem C6_ai_policy_witness :
    aiStep [] cexAiExample =
      { cexAiExample with
        aiHand := cexAiExample.aiHand.filter fun x => x.id ≠ (cardOf 73 .hearts .r8).id,
        discardPile := cexAiExample.discardPile ++ [cardOf 73 .hearts .r8],
        currentTurn := .player,
        currentSuit := some (bestSuit
          (suitCounts (cardOf 73 .hearts .r8).id cexAiExample.aiHand)) }
    ∧ bestSuit (suitCounts (cardOf 73 .hearts .r8).id cexAiExample.aiHand)
        = Suit.clubs := by
  constructor
  · exact ((C6_ai_policy cexAiExample [] (cardOf 71 .spades .rK) rfl rfl rfl).2.1
      (by decide) [] (cardOf 73 .hearts .r8)
      [cardOf 74 .clubs .r3, cardOf 75 .clubs .r5, cardOf 76 .diamonds .r9]
      rfl (by decide) rfl (by decide)).1
  · decide
